import Mathlib

/-!
Verification of the schrodinger-2d trajectory visualizer (src/visualizer.py).

The file contains a shallow embedding of the two core functions:

* `read_trajectory` — parses the binary trajectory container
  (magic "SCHR", three native-endian int32 header fields, then raw frames
  of width*height complex128 samples, 16 bytes each).  The byte stream is
  modelled as a `List Nat`; a decoded frame is kept as its raw 16*w*h byte
  chunk (numpy's `frombuffer`/`reshape` is a pure reinterpretation of those
  bytes, so frame identity is byte-chunk identity).
* `complex_to_rgb` — the per-sample domain-coloring transform, embedded
  over the reals (the float64 arithmetic of numpy is modelled by exact
  real arithmetic).

Python error behavior is modelled by `Except`:
`sys.exit(1)` on a magic mismatch becomes `ReadError.badMagic`, and the
`struct.error` raised by `struct.unpack("iii", f.read(12))` when fewer
than 12 bytes remain becomes `ReadError.truncatedHeader`.
-/

/-- The 4 magic bytes b"SCHR". -/
def magicBytes : List Nat := [83, 67, 72, 82]

/-- Reinterpret a 32-bit unsigned value as a signed int32 (two's complement),
as `struct.unpack("i", ...)` does. -/
def toInt32 (u : Nat) : Int :=
  let r := u % 4294967296
  if r < 2147483648 then (r : Int) else (r : Int) - 4294967296

/-- Byte of a stream at an index (streams are only indexed inside their
length in every use below). -/
def byteAt (l : List Nat) (i : Nat) : Nat := l.getD i 0

/-- Little-endian signed int32 at offset `off` of a byte list, the layout
`struct.unpack("iii", ...)` reads on the (little-endian) producing platform. -/
def int32At (l : List Nat) (off : Nat) : Int :=
  toInt32 (byteAt l off + 256 * byteAt l (off + 1) +
           65536 * byteAt l (off + 2) + 16777216 * byteAt l (off + 3))

/-- Fatal outcomes of `read_trajectory`: the `sys.exit(1)` on a magic
mismatch, and the `struct.error` escaping when the 12 header bytes are
short (the header could not be unpacked). -/
inductive ReadError where
  | badMagic : ReadError
  | truncatedHeader : ReadError
deriving DecidableEq, Repr

/-- What `read_trajectory` returns (plus the observable leftover of the
stream): `width, height, frames`, the optional "Incomplete frame i"
warning index, and the bytes never read from the stream. -/
structure ReadResult where
  width : Int
  height : Int
  frames : List (List Nat)
  warnedFrame : Option Nat
  unread : List Nat
deriving DecidableEq, Repr

/-- The `for i in range(frame_count)` loop of `read_trajectory`:
`data = f.read(frame_size_bytes)`; a short read prints the warning and
breaks, a full read appends the frame bytes.  `f.read(k)` returns
`min(k, remaining)` bytes for `k ≥ 0` and the whole remainder for `k < 0`.
Arguments: frame size in bytes (an `Int`: it is negative when a header
dimension is), iterations left, current loop index `i`, stream remainder. -/
def readFramesLoop (frameSize : Int) :
    Nat → Nat → List Nat → List (List Nat) × Option Nat × List Nat
  | 0, _, s => ([], none, s)
  | m + 1, i, s =>
      let data := if frameSize < 0 then s else s.take frameSize.toNat
      let rest := if frameSize < 0 then [] else s.drop frameSize.toNat
      if (data.length : Int) = frameSize then
        let r := readFramesLoop frameSize m (i + 1) rest
        (data :: r.1, r.2.1, r.2.2)
      else
        ([], some i, rest)

/-- Shallow embedding of `read_trajectory` (src/visualizer.py lines 10-50)
on the bytes of an existing file. -/
def read_trajectory (bytes : List Nat) : Except ReadError ReadResult :=
  if bytes.take 4 ≠ magicBytes then
    .error .badMagic
  else
    let afterMagic := bytes.drop 4
    if afterMagic.length < 12 then
      .error .truncatedHeader
    else
      let width := int32At afterMagic 0
      let height := int32At afterMagic 4
      let frameCount := int32At afterMagic 8
      let frameSizeBytes := width * height * 16
      let payload := afterMagic.drop 12
      let r := readFramesLoop frameSizeBytes frameCount.toNat 0 payload
      .ok ⟨width, height, r.1, r.2.1, r.2.2⟩

/-- The first `k` successive `fs`-byte chunks of a stream (the frames a
fully successful prefix of the loop decodes). -/
def prefixChunks (fs : Nat) : Nat → List Nat → List (List Nat)
  | 0, _ => []
  | k + 1, s => s.take fs :: prefixChunks fs k (s.drop fs)

/-- Unfolding of one loop iteration when the frame size is nonnegative. -/
theorem readFramesLoop_succ (fs : Int) (hfs : 0 ≤ fs) (m i : Nat) (s : List Nat) :
    readFramesLoop fs (m + 1) i s =
      if ((s.take fs.toNat).length : Int) = fs then
        (s.take fs.toNat :: (readFramesLoop fs m (i + 1) (s.drop fs.toNat)).1,
         (readFramesLoop fs m (i + 1) (s.drop fs.toNat)).2.1,
         (readFramesLoop fs m (i + 1) (s.drop fs.toNat)).2.2)
      else
        ([], some i, s.drop fs.toNat) := by
  have hneg : ¬ fs < 0 := not_lt.mpr hfs
  show (let data := if fs < 0 then s else s.take fs.toNat
        let rest := if fs < 0 then [] else s.drop fs.toNat
        if (data.length : Int) = fs then
          let r := readFramesLoop fs m (i + 1) rest
          (data :: r.1, r.2.1, r.2.2)
        else ([], some i, rest)) = _
  rw [if_neg hneg, if_neg hneg]

/-- For a positive frame size the loop decodes exactly
`min iterations (streamLength / frameSize)` frames. -/
theorem readFramesLoop_length (fs : Int) (hfs : 0 < fs) :
    ∀ (m i : Nat) (s : List Nat),
      (readFramesLoop fs m i s).1.length = min m (s.length / fs.toNat) := by
  intro m
  induction m with
  | zero => intro i s; simp [readFramesLoop]
  | succ m ih =>
      intro i s
      have hft : 0 < fs.toNat := by omega
      rw [readFramesLoop_succ fs (le_of_lt hfs) m i s]
      by_cases hlen : fs.toNat ≤ s.length
      · have htake : (s.take fs.toNat).length = fs.toNat := by
          simp [List.length_take, Nat.min_eq_left hlen]
        have hcond : ((s.take fs.toNat).length : Int) = fs := by rw [htake]; omega
        rw [if_pos hcond]
        simp only [List.length_cons, ih]
        have hdrop : (s.drop fs.toNat).length = s.length - fs.toNat := by
          simp [List.length_drop]
        rw [hdrop]
        have hdiv : s.length / fs.toNat = (s.length - fs.toNat) / fs.toNat + 1 := by
          rw [Nat.div_eq s.length fs.toNat, if_pos ⟨hft, hlen⟩]
        rw [hdiv, Nat.succ_min_succ]
      · have hlt : s.length < fs.toNat := not_le.mp hlen
        have htake : (s.take fs.toNat).length = s.length := by
          simp [List.length_take, Nat.min_eq_right (le_of_lt hlt)]
        have hcond : ¬ ((s.take fs.toNat).length : Int) = fs := by rw [htake]; omega
        rw [if_neg hcond]
        have hdiv : s.length / fs.toNat = 0 := Nat.div_eq_of_lt hlt
        simp [hdiv]

/-- For a positive frame size, when the stream holds fewer than
`m * frameSize` bytes the loop stops at the first short read: it returns
exactly the `length / frameSize` full chunks it decoded and warns with
that index (offset by the starting loop index). -/
theorem readFramesLoop_truncated (fs : Int) (hfs : 0 < fs) :
    ∀ (m i : Nat) (s : List Nat), s.length < m * fs.toNat →
      (readFramesLoop fs m i s).1 = prefixChunks fs.toNat (s.length / fs.toNat) s ∧
      (readFramesLoop fs m i s).2.1 = some (i + s.length / fs.toNat) := by
  intro m
  induction m with
  | zero => intro i s h; simp at h
  | succ m ih =>
      intro i s h
      have hft : 0 < fs.toNat := by omega
      rw [readFramesLoop_succ fs (le_of_lt hfs) m i s]
      by_cases hlen : fs.toNat ≤ s.length
      · have htake : (s.take fs.toNat).length = fs.toNat := by
          simp [List.length_take, Nat.min_eq_left hlen]
        have hcond : ((s.take fs.toNat).length : Int) = fs := by rw [htake]; omega
        rw [if_pos hcond]
        have hdrop : (s.drop fs.toNat).length = s.length - fs.toNat := by
          simp [List.length_drop]
        have hrec : (s.drop fs.toNat).length < m * fs.toNat := by
          have hmul : (m + 1) * fs.toNat = m * fs.toNat + fs.toNat := by ring
          omega
        obtain ⟨h1, h2⟩ := ih (i + 1) (s.drop fs.toNat) hrec
        have hdiv : s.length / fs.toNat = (s.length - fs.toNat) / fs.toNat + 1 := by
          rw [Nat.div_eq s.length fs.toNat, if_pos ⟨hft, hlen⟩]
        constructor
        · rw [hdiv, prefixChunks]
          simp only [List.cons.injEq, true_and]
          rw [h1, hdrop]
        · rw [h2, hdrop, hdiv]
          congr 1
          omega
      · have hlt : s.length < fs.toNat := not_le.mp hlen
        have htake : (s.take fs.toNat).length = s.length := by
          simp [List.length_take, Nat.min_eq_right (le_of_lt hlt)]
        have hcond : ¬ ((s.take fs.toNat).length : Int) = fs := by rw [htake]; omega
        rw [if_neg hcond]
        have hdiv : s.length / fs.toNat = 0 := Nat.div_eq_of_lt hlt
        exact ⟨by simp [hdiv, prefixChunks], by simp [hdiv]⟩

/-- When the magic matches and the 12 header bytes are present,
`read_trajectory` decodes the header and runs the frame loop on the
payload. -/
theorem read_trajectory_headerOk (bytes : List Nat)
    (hm : bytes.take 4 = magicBytes) (hl : 12 ≤ (bytes.drop 4).length) :
    read_trajectory bytes =
      .ok ⟨int32At (bytes.drop 4) 0, int32At (bytes.drop 4) 4,
           (readFramesLoop (int32At (bytes.drop 4) 0 * int32At (bytes.drop 4) 4 * 16)
             (int32At (bytes.drop 4) 8).toNat 0 ((bytes.drop 4).drop 12)).1,
           (readFramesLoop (int32At (bytes.drop 4) 0 * int32At (bytes.drop 4) 4 * 16)
             (int32At (bytes.drop 4) 8).toNat 0 ((bytes.drop 4).drop 12)).2.1,
           (readFramesLoop (int32At (bytes.drop 4) 0 * int32At (bytes.drop 4) 4 * 16)
             (int32At (bytes.drop 4) 8).toNat 0 ((bytes.drop 4).drop 12)).2.2⟩ := by
  have h1 : ¬ (bytes.take 4 ≠ magicBytes) := by simp [hm]
  have h2 : ¬ ((bytes.drop 4).length < 12) := by omega
  simp only [read_trajectory, if_neg h1, if_neg h2]

/-- `prefixChunks` always yields the requested number of chunks. -/
theorem prefixChunks_length (fs : Nat) :
    ∀ (k : Nat) (s : List Nat), (prefixChunks fs k s).length = k := by
  intro k
  induction k with
  | zero => intro s; simp [prefixChunks]
  | succ k ih => intro s; simp [prefixChunks, ih]

/-- A file with a valid header, one frame declared and a full frame of
payload: magic, width 1, height 1, frameCount 3, then 40 payload bytes
(two full 16-byte frames and 8 bytes of a third). -/
def c1Bytes : List Nat :=
  magicBytes ++ [1, 0, 0, 0, 1, 0, 0, 0, 3, 0, 0, 0] ++ List.replicate 40 7

/-- A valid header declaring 5 frames but only 2 complete 16-byte frames
of payload (the truncation scenario of the spec). -/
def c2Bytes : List Nat :=
  magicBytes ++ [1, 0, 0, 0, 1, 0, 0, 0, 5, 0, 0, 0] ++ List.replicate 32 9

/-- Magic plus a full header with width 0, height 1, frameCount 0. -/
def c3Bytes : List Nat :=
  magicBytes ++ [0, 0, 0, 0, 1, 0, 0, 0, 0, 0, 0, 0]

/-- C1: for every file with a valid header (magic "SCHR", width > 0,
height > 0, declared frame count ≥ 0), the number of frames returned by
`read_trajectory` equals
`min declaredFrameCount (remainingBytes / (width * height * 16))`, the
remaining bytes being the payload after the 16-byte header. -/
theorem c1_frame_count (bytes : List Nat) (w h n : Int)
    (hm : bytes.take 4 = magicBytes) (hl : 12 ≤ (bytes.drop 4).length)
    (hw : int32At (bytes.drop 4) 0 = w) (hh : int32At (bytes.drop 4) 4 = h)
    (hn : int32At (bytes.drop 4) 8 = n)
    (hwpos : 0 < w) (hhpos : 0 < h) (hnn : 0 ≤ n) :
    ∃ res : ReadResult, read_trajectory bytes = .ok res ∧
      res.frames.length =
        min n.toNat (((bytes.drop 4).drop 12).length / (w * h * 16).toNat) := by
  subst hw hh hn
  refine ⟨_, read_trajectory_headerOk bytes hm hl, ?_⟩
  have hfs : 0 < int32At (bytes.drop 4) 0 * int32At (bytes.drop 4) 4 * 16 := by
    have := mul_pos hwpos hhpos
    omega
  exact readFramesLoop_length _ hfs _ 0 _

/-- Witness for C1 on a concrete file: width 1, height 1, 3 declared
frames, 40 payload bytes, so 2 = min 3 (40 / 16) frames are decoded. -/
theorem c1_frame_count_witness :
    ∃ res : ReadResult, read_trajectory c1Bytes = .ok res ∧
      res.frames.length =
        min (3 : Int).toNat
          (((c1Bytes.drop 4).drop 12).length / ((1 : Int) * 1 * 16).toNat) :=
  c1_frame_count c1Bytes 1 1 3 (by decide) (by decide) (by decide) (by decide)
    (by decide) (by decide) (by decide) (by decide)

/-- C4: for every file whose first 4 bytes are not the ASCII "SCHR",
`read_trajectory` fails with `badMagic`, producing no trajectory. -/
theorem c4_bad_magic (bytes : List Nat) (hm : bytes.take 4 ≠ magicBytes) :
    read_trajectory bytes = .error .badMagic := by
  simp only [read_trajectory, if_pos hm]

/-- Witness for C4: a file starting with "ABCD". -/
theorem c4_bad_magic_witness :
    read_trajectory [65, 66, 67, 68, 1, 0, 0, 0] = .error .badMagic :=
  c4_bad_magic [65, 66, 67, 68, 1, 0, 0, 0] (by decide)

/-- C5: for every file beginning with the magic "SCHR" but holding fewer
than 12 further bytes, `read_trajectory` fails fatally (the header unpack
raises) and no partial trajectory is returned. -/
theorem c5_truncated_header (bytes : List Nat)
    (hm : bytes.take 4 = magicBytes) (hl : (bytes.drop 4).length < 12) :
    read_trajectory bytes = .error .truncatedHeader := by
  have h1 : ¬ (bytes.take 4 ≠ magicBytes) := by simp [hm]
  simp only [read_trajectory, if_neg h1, if_pos hl]

/-- Witness for C5: magic followed by only 5 bytes. -/
theorem c5_truncated_header_witness :
    read_trajectory [83, 67, 72, 82, 1, 0, 0, 0, 2] = .error .truncatedHeader :=
  c5_truncated_header [83, 67, 72, 82, 1, 0, 0, 0, 2] (by decide) (by decide)

/-- C10: for every file with magic "SCHR", a full 12-byte header and a
negative declared frame count, `read_trajectory` succeeds, returning the
decoded width and height with an empty frame list and no warning, and
reads no payload bytes. -/
theorem c10_negative_count (bytes : List Nat) (w h n : Int)
    (hm : bytes.take 4 = magicBytes) (hl : 12 ≤ (bytes.drop 4).length)
    (hw : int32At (bytes.drop 4) 0 = w) (hh : int32At (bytes.drop 4) 4 = h)
    (hn : int32At (bytes.drop 4) 8 = n) (hneg : n < 0) :
    read_trajectory bytes = .ok ⟨w, h, [], none, (bytes.drop 4).drop 12⟩ := by
  subst hw hh hn
  rw [read_trajectory_headerOk bytes hm hl]
  have h0 : (int32At (bytes.drop 4) 8).toNat = 0 := by omega
  rw [h0]
  rfl

/-- Witness for C10: header declaring frame count -1 (bytes 255,255,255,255)
with 16 payload bytes left unread. -/
theorem c10_negative_count_witness :
    read_trajectory
        (magicBytes ++ [2, 0, 0, 0, 2, 0, 0, 0, 255, 255, 255, 255] ++
          List.replicate 16 5) =
      .ok ⟨2, 2, [], none,
        (((magicBytes ++ [2, 0, 0, 0, 2, 0, 0, 0, 255, 255, 255, 255] ++
          List.replicate 16 5).drop 4).drop 12)⟩ :=
  c10_negative_count _ 2 2 (-1) (by decide) (by decide) (by decide) (by decide)
    (by decide) (by decide)

/-- C2: for every file with a valid header whose payload is short of the
declared `n * width * height * 16` bytes, `read_trajectory` does not fail:
with `i` the number of full frames the payload holds, it warns about an
incomplete frame `i` and returns exactly the `i` frames fully decoded
before the short read, each the unchanged 16·width·height-byte chunk of
the payload. -/
theorem c2_truncation_tolerated (bytes : List Nat) (w h n : Int)
    (hm : bytes.take 4 = magicBytes) (hl : 12 ≤ (bytes.drop 4).length)
    (hw : int32At (bytes.drop 4) 0 = w) (hh : int32At (bytes.drop 4) 4 = h)
    (hn : int32At (bytes.drop 4) 8 = n)
    (hwpos : 0 < w) (hhpos : 0 < h) (hnn : 0 ≤ n)
    (hshort : ((bytes.drop 4).drop 12).length < n.toNat * (w * h * 16).toNat) :
    ∃ res : ReadResult, read_trajectory bytes = .ok res ∧
      res.frames =
        prefixChunks (w * h * 16).toNat
          (((bytes.drop 4).drop 12).length / (w * h * 16).toNat)
          ((bytes.drop 4).drop 12) ∧
      res.frames.length =
        ((bytes.drop 4).drop 12).length / (w * h * 16).toNat ∧
      res.warnedFrame =
        some (((bytes.drop 4).drop 12).length / (w * h * 16).toNat) := by
  subst hw hh hn
  refine ⟨_, read_trajectory_headerOk bytes hm hl, ?_⟩
  have hfs : 0 < int32At (bytes.drop 4) 0 * int32At (bytes.drop 4) 4 * 16 := by
    have := mul_pos hwpos hhpos
    omega
  obtain ⟨h1, h2⟩ := readFramesLoop_truncated _ hfs _ 0 _ hshort
  refine ⟨h1, ?_, ?_⟩
  · rw [h1, prefixChunks_length]
  · rw [h2, Nat.zero_add]

/-- Witness for C2 on the spec scenario: width 1, height 1, 5 declared
frames, only 2 complete frames of payload; exactly the 2 full 16-byte
chunks come back, with a warning about frame 2. -/
theorem c2_truncation_tolerated_witness :
    ∃ res : ReadResult, read_trajectory c2Bytes = .ok res ∧
      res.frames =
        prefixChunks ((1 : Int) * 1 * 16).toNat
          (((c2Bytes.drop 4).drop 12).length / ((1 : Int) * 1 * 16).toNat)
          ((c2Bytes.drop 4).drop 12) ∧
      res.frames.length =
        ((c2Bytes.drop 4).drop 12).length / ((1 : Int) * 1 * 16).toNat ∧
      res.warnedFrame =
        some (((c2Bytes.drop 4).drop 12).length / ((1 : Int) * 1 * 16).toNat) :=
  c2_truncation_tolerated c2Bytes 1 1 5 (by decide) (by decide) (by decide)
    (by decide) (by decide) (by decide) (by decide) (by decide) (by decide)

/-- C3 counterexample: a file with magic "SCHR", width 0 (≤ 0), height 1
and frame count 0 does NOT fail — `read_trajectory` returns a result, so
no `InvalidDimensions` failure exists in the code. -/
theorem c3_counterexample :
    int32At (c3Bytes.drop 4) 0 ≤ 0 ∧
      read_trajectory c3Bytes = .ok ⟨0, 1, [], none, []⟩ := ⟨by decide, by rfl⟩

/-- C3 amended: `read_trajectory` performs no dimension validation; a file
with magic "SCHR", a full header, width ≤ 0 or height ≤ 0 and a declared
frame count ≤ 0 loads successfully, returning the nonpositive dimensions
with an empty frame list. -/
theorem c3_no_invalid_dimensions (bytes : List Nat) (w h n : Int)
    (hm : bytes.take 4 = magicBytes) (hl : 12 ≤ (bytes.drop 4).length)
    (hw : int32At (bytes.drop 4) 0 = w) (hh : int32At (bytes.drop 4) 4 = h)
    (hn : int32At (bytes.drop 4) 8 = n)
    (hdim : w ≤ 0 ∨ h ≤ 0) (hn0 : n ≤ 0) :
    read_trajectory bytes = .ok ⟨w, h, [], none, (bytes.drop 4).drop 12⟩ := by
  subst hw hh hn
  rw [read_trajectory_headerOk bytes hm hl]
  have h0 : (int32At (bytes.drop 4) 8).toNat = 0 := by omega
  rw [h0]
  rfl

/-- Witness for the amended C3 at the counterexample file. -/
theorem c3_no_invalid_dimensions_witness :
    read_trajectory c3Bytes = .ok ⟨0, 1, [], none, (c3Bytes.drop 4).drop 12⟩ :=
  c3_no_invalid_dimensions c3Bytes 0 1 0 (by decide) (by decide) (by decide)
    (by decide) (by decide) (Or.inl (by decide)) (by decide)

/-!
The domain-coloring transform `complex_to_rgb`
(src/visualizer.py lines 53-80), embedded per sample over the reals.
A sample `z = x + i·y` is the pair `(x, y)`.
-/

/-- `a = np.abs(z)`: the amplitude of the sample. -/
noncomputable def ampOf (x y : ℝ) : ℝ := Real.sqrt (x ^ 2 + y ^ 2)

/-- The luma array `y`: `arctan(a)/π` on the mask, `0` elsewhere
(`np.zeros_like` background). -/
noncomputable def lumOf (x y : ℝ) : ℝ :=
  if 1e-9 < ampOf x y then Real.arctan (ampOf x y) / Real.pi else 0

/-- Real part of `scaled_z = z * (0.5 * y / a)` on the mask, `0` elsewhere. -/
noncomputable def uOf (x y : ℝ) : ℝ :=
  if 1e-9 < ampOf x y then x * (0.5 * lumOf x y / ampOf x y) else 0

/-- Imaginary part of `scaled_z = z * (0.5 * y / a)` on the mask, `0`
elsewhere. -/
noncomputable def vOf (x y : ℝ) : ℝ :=
  if 1e-9 < ampOf x y then y * (0.5 * lumOf x y / ampOf x y) else 0

/-- The three channels `r, g, b` before the final clip
(lines 73-75 of the source). -/
noncomputable def preChannels (x y : ℝ) : ℝ × ℝ × ℝ :=
  (lumOf x y + 1.5748 * vOf x y,
   lumOf x y - 0.1873 * uOf x y - 0.4681 * vOf x y,
   lumOf x y + 1.8556 * uOf x y)

/-- `np.clip(·, 0, 1)` on one channel. -/
noncomputable def clip01 (t : ℝ) : ℝ := max 0 (min 1 t)

/-- One pixel of `complex_to_rgb`: the clipped channels. -/
noncomputable def complexToRGBPixel (x y : ℝ) : ℝ × ℝ × ℝ :=
  (clip01 (preChannels x y).1,
   clip01 (preChannels x y).2.1,
   clip01 (preChannels x y).2.2)

/-- `complex_to_rgb` on a whole frame: the transform is applied
independently to every sample of the grid. -/
noncomputable def complexToRGBFrame (frame : List (List (ℝ × ℝ))) :
    List (List (ℝ × ℝ × ℝ)) :=
  frame.map (fun row => row.map (fun p => complexToRGBPixel p.1 p.2))

/-- The observable effect of one call of `complex_to_rgb`: the argument
array after the call (the function allocates fresh arrays `y` and
`scaled_z` and never writes into `z`) together with the returned image. -/
noncomputable def complexToRGBCall (frame : List (List (ℝ × ℝ))) :
    List (List (ℝ × ℝ)) × List (List (ℝ × ℝ × ℝ)) :=
  (frame, complexToRGBFrame frame)

/-- The clip never goes below 0. -/
theorem clip01_nonneg (t : ℝ) : 0 ≤ clip01 t := le_max_left 0 _

/-- The clip never exceeds 1. -/
theorem clip01_le_one (t : ℝ) : clip01 t ≤ 1 :=
  max_le (by norm_num) (min_le_left 1 t)

/-- A value already inside `[0,1]` passes the clip unchanged. -/
theorem clip01_of_mem (t : ℝ) (h0 : 0 ≤ t) (h1 : t ≤ 1) : clip01 t = t := by
  rw [clip01, min_eq_right h1, max_eq_right h0]

/-- C6: for every sample of amplitude above `1e-9` the pre-clip channels
are `r = lum + 1.5748·v`, `g = lum − 0.1873·u − 0.4681·v`,
`b = lum + 1.8556·u` with `lum = arctan(a)/π`, `scale = 0.5·lum/a`,
`u = scale·x`, `v = scale·y`; in particular the sample `z = 1 + 0i` maps
to the pixel `(0.25, 0.25 − 0.1873·0.125, 0.25 + 1.8556·0.125)`,
unclipped. -/
theorem c6_pixel_formula (x y : ℝ) (h : 1e-9 < ampOf x y) :
    preChannels x y =
      (Real.arctan (ampOf x y) / Real.pi +
         1.5748 * (0.5 * (Real.arctan (ampOf x y) / Real.pi) / ampOf x y * y),
       Real.arctan (ampOf x y) / Real.pi -
         0.1873 * (0.5 * (Real.arctan (ampOf x y) / Real.pi) / ampOf x y * x) -
         0.4681 * (0.5 * (Real.arctan (ampOf x y) / Real.pi) / ampOf x y * y),
       Real.arctan (ampOf x y) / Real.pi +
         1.8556 * (0.5 * (Real.arctan (ampOf x y) / Real.pi) / ampOf x y * x)) ∧
    complexToRGBPixel 1 0 =
      (0.25, 0.25 - 0.1873 * 0.125, 0.25 + 1.8556 * 0.125) := by
  constructor
  · simp only [preChannels, uOf, vOf, lumOf, if_pos h, Prod.mk.injEq]
    refine ⟨by ring, by ring, by ring⟩
  · have ha : ampOf 1 0 = 1 := by
      simp only [ampOf]
      norm_num
    have hvalid : (1e-9 : ℝ) < ampOf 1 0 := by rw [ha]; norm_num
    have hlum : lumOf 1 0 = 0.25 := by
      rw [lumOf, if_pos hvalid, ha, Real.arctan_one]
      have hpi := Real.pi_ne_zero
      field_simp
      ring
    have hu : uOf 1 0 = 0.125 := by
      rw [uOf, if_pos hvalid, ha, hlum]
      norm_num
    have hv : vOf 1 0 = 0 := by
      rw [vOf, if_pos hvalid]
      norm_num
    have hpre : preChannels 1 0 =
        (0.25, 0.25 - 0.1873 * 0.125, 0.25 + 1.8556 * 0.125) := by
      rw [preChannels, hlum, hu, hv]
      norm_num
    rw [complexToRGBPixel, hpre]
    simp only
    rw [clip01_of_mem _ (by norm_num) (by norm_num),
        clip01_of_mem _ (by norm_num) (by norm_num),
        clip01_of_mem _ (by norm_num) (by norm_num)]

/-- Witness for C6 at the sample `z = 1 + 0i`. -/
theorem c6_pixel_formula_witness :
    preChannels 1 0 =
      (Real.arctan (ampOf 1 0) / Real.pi +
         1.5748 * (0.5 * (Real.arctan (ampOf 1 0) / Real.pi) / ampOf 1 0 * 0),
       Real.arctan (ampOf 1 0) / Real.pi -
         0.1873 * (0.5 * (Real.arctan (ampOf 1 0) / Real.pi) / ampOf 1 0 * 1) -
         0.4681 * (0.5 * (Real.arctan (ampOf 1 0) / Real.pi) / ampOf 1 0 * 0),
       Real.arctan (ampOf 1 0) / Real.pi +
         1.8556 * (0.5 * (Real.arctan (ampOf 1 0) / Real.pi) / ampOf 1 0 * 1)) ∧
    complexToRGBPixel 1 0 =
      (0.25, 0.25 - 0.1873 * 0.125, 0.25 + 1.8556 * 0.125) :=
  c6_pixel_formula 1 0 (by simp only [ampOf]; norm_num)

/-- C7: every sample whose amplitude is at most `1e-9` maps to the pixel
`(0, 0, 0)` exactly. -/
theorem c7_black_below_epsilon (x y : ℝ) (h : ampOf x y ≤ 1e-9) :
    complexToRGBPixel x y = (0, 0, 0) := by
  have hn : ¬ (1e-9 < ampOf x y) := not_lt.mpr h
  have hlum : lumOf x y = 0 := by rw [lumOf, if_neg hn]
  have hu : uOf x y = 0 := by rw [uOf, if_neg hn]
  have hv : vOf x y = 0 := by rw [vOf, if_neg hn]
  have hpre : preChannels x y = (0, 0, 0) := by
    rw [preChannels, hlum, hu, hv]
    norm_num
  rw [complexToRGBPixel, hpre]
  simp only
  rw [clip01_of_mem _ le_rfl (by norm_num)]

/-- Witness for C7 at the sample `z = 0`. -/
theorem c7_black_below_epsilon_witness :
    complexToRGBPixel 0 0 = (0, 0, 0) :=
  c7_black_below_epsilon 0 0 (by simp only [ampOf]; norm_num)

/-- C8: for every sample, each of the three channels of the produced
pixel lies in `[0, 1]`. -/
theorem c8_channels_clipped (x y : ℝ) :
    (0 ≤ (complexToRGBPixel x y).1 ∧ (complexToRGBPixel x y).1 ≤ 1) ∧
    (0 ≤ (complexToRGBPixel x y).2.1 ∧ (complexToRGBPixel x y).2.1 ≤ 1) ∧
    (0 ≤ (complexToRGBPixel x y).2.2 ∧ (complexToRGBPixel x y).2.2 ≤ 1) := by
  simp only [complexToRGBPixel]
  exact ⟨⟨clip01_nonneg _, clip01_le_one _⟩, ⟨clip01_nonneg _, clip01_le_one _⟩,
    ⟨clip01_nonneg _, clip01_le_one _⟩⟩

/-- C9: `complex_to_rgb` is deterministic and pure — identical input
frames yield identical RGB images, and the input frame is unchanged by
the call. -/
theorem c9_deterministic_pure (f1 f2 : List (List (ℝ × ℝ))) (h : f1 = f2) :
    (complexToRGBCall f1).2 = (complexToRGBCall f2).2 ∧
    (complexToRGBCall f1).1 = f1 := by
  subst h
  exact ⟨rfl, rfl⟩

/-- Witness for C9 at a concrete one-sample frame. -/
theorem c9_deterministic_pure_witness :
    (complexToRGBCall [[((1 : ℝ), (0 : ℝ))]]).2 =
      (complexToRGBCall [[((1 : ℝ), (0 : ℝ))]]).2 ∧
    (complexToRGBCall [[((1 : ℝ), (0 : ℝ))]]).1 = [[((1 : ℝ), (0 : ℝ))]] :=
  c9_deterministic_pure [[((1 : ℝ), (0 : ℝ))]] [[((1 : ℝ), (0 : ℝ))]] rfl
